/-
Verification of the bus-number recognition pipeline
(agent-starter-react): the Match Validator, the detection
postprocessor (layout inference, NMS, coordinate transform), the
parallel OCR engine (concurrency bound, abort propagation, error
handling) and the announcement logic (single-TTS invariant).

Each definition is a shallow embedding of the corresponding
TypeScript source; the source file and line ranges are given in the
doc comments.  JavaScript numbers are modelled as exact rationals
(ℚ) and integer counters as ℤ/ℕ.
-/
import Mathlib

/-! ### Match Validator (src/components/app/CameraComponent.tsx) -/

/-- Embeds `normalizeBusNumber` (CameraComponent.tsx lines 219-222):
strip all characters that are not ASCII letters or digits
(`replace(/[^a-zA-Z0-9]/g, '')`), then uppercase. -/
def normalizeBusNumber (s : String) : String :=
  String.mk ((s.data.filter fun c => c.isAlphanum).map Char.toUpper)

/-- Scan over the suffixes of a character list for a prefix match. -/
def listIncludesAux (sub : List Char) : List Char → Bool
  | [] => sub.isPrefixOf []
  | c :: rest => sub.isPrefixOf (c :: rest) || listIncludesAux sub rest

/-- Embeds JavaScript `String.prototype.includes`: `sub` occurs as a
contiguous substring of `s`. -/
def strIncludes (s sub : String) : Bool :=
  listIncludesAux sub.data s.data

/-- One cell-by-cell pass of the Levenshtein dynamic programming row
(CameraComponent.tsx lines 224-239, inner `j` loop).  Arguments:
remaining characters of `b`; remaining entries `dp[i-1][j..]` of the
previous row; `left = dp[i][j-1]`; `diag = dp[i-1][j-1]`. -/
def levRowAux (ca : Char) : List Char → List Nat → Nat → Nat → List Nat
  | [], _, _, _ => []
  | _ :: _, [], _, _ => []
  | cb :: bs, above :: rest, left, diag =>
    let cur := if ca = cb then diag else 1 + min diag (min above left)
    cur :: levRowAux ca bs rest cur above

/-- Row `i` of the Levenshtein table from row `i-1`
(CameraComponent.tsx lines 228-237): `dp[i][0] = i`, then the inner
loop over `j`. -/
def levNextRow (ca : Char) (bs : List Char) (i : Nat) (prev : List Nat) : List Nat :=
  i :: levRowAux ca bs prev.tail i (prev.headD 0)

/-- Embeds `levenshteinDistance` (CameraComponent.tsx lines 224-239):
the classic dynamic-programming edit distance, computed row by row;
`dp[0][j] = j`, and the answer is `dp[m][n]`. -/
def levenshteinDistance (a b : String) : Nat :=
  let bs := b.data
  let row0 := List.range (bs.length + 1)
  let finalRow := a.data.enum.foldl (fun prev ic => levNextRow ic.2 bs (ic.1 + 1) prev) row0
  finalRow.getLastD 0

/-- Embeds the fuzzy tier of `findClosestValidRoute`
(CameraComponent.tsx lines 279-289): fold over the whitelist keeping
the best candidate at Levenshtein distance ≤ 1 with length
difference ≤ 1; `none` plays the role of `bestD = Infinity`. -/
def levBestStep (ocrText : String) (acc : String × Option Nat) (r : String) :
    String × Option Nat :=
  let d := levenshteinDistance ocrText r
  if d ≤ 1 ∧ (((ocrText.length : ℤ) - (r.length : ℤ)).natAbs ≤ 1) ∧
      (acc.2.all fun bd => decide (d < bd)) = true then
    (r, some d)
  else acc

/-- Embeds `findClosestValidRoute` (CameraComponent.tsx lines 241-292).
The whitelist `busRoutes` is the value of `validBusRoutesRef.current`.
Tier order as in the source: empty-whitelist rejection; normalization
and empty/'NONE' rejection; full-text exact membership; per-word exact
membership; containment of a route in the text (route length ≥ 50% of
text length); containment of the text in a route (text length ≥ 60% of
route length); Levenshtein tier. -/
def findClosestValidRoute (busRoutes : List String) (ocrTextRaw : String)
    (individualWords : List String) : String :=
  if busRoutes.isEmpty then "None"
  else
    let ocrText := normalizeBusNumber ocrTextRaw
    if ocrText = "" ∨ ocrText = "NONE" then "None"
    else if busRoutes.contains ocrText then ocrText
    else
      match individualWords.findSome? (fun wd =>
          let nw := normalizeBusNumber wd
          if nw ≠ "" ∧ busRoutes.contains nw then some nw else none) with
      | some nw => nw
      | none =>
        match busRoutes.find? (fun r =>
            strIncludes ocrText r && decide ((ocrText.length : ℚ) * (1/2) ≤ (r.length : ℚ))) with
        | some r => r
        | none =>
          match busRoutes.find? (fun r =>
              strIncludes r ocrText && decide ((r.length : ℚ) * (3/5) ≤ (ocrText.length : ℚ))) with
          | some r => r
          | none =>
            let best := (busRoutes.foldl (levBestStep ocrText) ("None", none)).1
            if best ≠ "None" then best else "None"

/-! ### Detection postprocessor: tensor layout inference
(src/unnamed/part_004 `processDetections`, and the variant in
src/lib/tflite-loader.ts) -/

/-- Layout chosen for the raw detector output buffer. -/
structure TensorLayout where
  numBoxes : Nat
  numAttr : Nat
  transposed : Bool
deriving DecidableEq, Repr

/-- Embeds the layout-inference block of `processDetections`
(src/unnamed/part_004 lines 277-293): start from
`numBoxes = 8400`, `numAttr = floor(total / 8400)`,
`transposed = false`; then `if (total === 8400 * 6)` pick channel-first
with 6 attributes, `else if (total === 6 * 8400)` pick transposed. -/
def inferLayout (total : Nat) : TensorLayout :=
  let numBoxes := 8400
  let numAttr := total / numBoxes
  if total = 8400 * 6 then ⟨8400, 6, false⟩
  else if total = 6 * 8400 then ⟨8400, 6, true⟩
  else ⟨numBoxes, numAttr, false⟩

/-- Embeds the `guess` helper of the tflite-loader variant
(src/lib/tflite-loader.ts lines 305-306): a candidate layout when the
factorization matches the buffer length exactly. -/
def guessLayout (numAttr numBoxes : Nat) (transposed : Bool) (total : Nat) :
    Option TensorLayout :=
  if numAttr * numBoxes = total then some ⟨numBoxes, numAttr, transposed⟩ else none

/-- Embeds the layout-inference block of the tflite-loader variant of
`processDetections` (src/lib/tflite-loader.ts lines 298-322): the
candidate list `[guess(6,8400,false), guess(5,8400,false),
guess(6,8400,true), guess(5,8400,true)]` filtered to matches, taking
the first; fallback `[8400, floor(total/8400)]` channel-first. -/
def inferLayoutTfliteLoader (total : Nat) : TensorLayout :=
  let candidates := ([guessLayout 6 8400 false total, guessLayout 5 8400 false total,
    guessLayout 6 8400 true total, guessLayout 5 8400 true total]).filterMap id
  match candidates with
  | c :: _ => c
  | [] => ⟨8400, total / 8400, false⟩

/-- Embeds the `attrAt` read of both `processDetections` variants
(src/unnamed/part_004 lines 305-306): attribute `a` of box `i` is
`outputData[i * numAttr + a]` when transposed, else
`outputData[a * numBoxes + i]`.  The flat buffer is modelled as a
function from indices to rational values. -/
def attrAt (L : TensorLayout) (outputData : Nat → ℚ) (i a : Nat) : ℚ :=
  if L.transposed then outputData (i * L.numAttr + a)
  else outputData (a * L.numBoxes + i)

/-! ### Detection postprocessor: boxes, IoU and non-max suppression
(src/unnamed/part_004 lines 377-409; identical in
src/lib/tflite-loader.ts lines 411-443) -/

/-- A bounding box `[x, y, width, height]` with exact rational
coordinates. -/
structure BBox where
  x : ℚ
  y : ℚ
  w : ℚ
  h : ℚ
deriving DecidableEq, Repr

/-- A detection as produced by `processDetections`
(src/unnamed/part_004 lines 15-20). -/
structure Detection where
  bbox : BBox
  confidence : ℚ
  class_id : Nat
  class_name : String
deriving DecidableEq, Repr

/-- Embeds `iou` (src/unnamed/part_004 lines 395-409):
intersection-over-union with the `ua <= 0 ? 0 : inter / ua` guard. -/
def iou (a b : BBox) : ℚ :=
  let iw := max 0 (min (a.x + a.w) (b.x + b.w) - max a.x b.x)
  let ih := max 0 (min (a.y + a.h) (b.y + b.h) - max a.y b.y)
  let inter := iw * ih
  let ua := a.w * a.h + b.w * b.h - inter
  if ua ≤ 0 then 0 else inter / ua

/-- Embeds the greedy loop of `applyNMS`
(src/unnamed/part_004 lines 381-392): keep a candidate exactly when
its IoU with every already-kept box is ≤ the threshold. -/
def nmsLoop (thr : ℚ) : List Detection → List Detection → List Detection
  | keep, [] => keep
  | keep, d :: rest =>
    if ∀ k ∈ keep, iou d.bbox k.bbox ≤ thr then nmsLoop thr (keep ++ [d]) rest
    else nmsLoop thr keep rest

/-- Confidence-descending comparison used by
`sort((a, b) => b.confidence - a.confidence)`
(src/unnamed/part_004 line 378).  JavaScript `sort` is stable, as is
`List.mergeSort`. -/
def confGE (a b : Detection) : Bool := decide (b.confidence ≤ a.confidence)

/-- Embeds `applyNMS` (src/unnamed/part_004 lines 377-393): sort by
descending confidence, then greedily keep. -/
def applyNMS (thr : ℚ) (dets : List Detection) : List Detection :=
  nmsLoop thr [] (dets.mergeSort confGE)

/-! ### Letterbox coordinate transform
(src/unnamed/part_004 `preprocessImage` lines 113-169 and
`processDetections` lines 337-357) -/

/-- Embeds the letterbox parameters of `preprocessImage`
(src/unnamed/part_004 lines 121-127):
`scale = min(S/Wsrc, S/Hsrc)`, `scaledW = round(Wsrc*scale)`,
`padX = floor((S - scaledW)/2)` and likewise for the vertical axis.
Returns `(scale, padX, padY)`. -/
def letterboxParams (S Wsrc Hsrc : ℚ) : ℚ × ℤ × ℤ :=
  let scale := min (S / Wsrc) (S / Hsrc)
  let scaledW : ℤ := round (Wsrc * scale)
  let scaledH : ℤ := round (Hsrc * scale)
  (scale, ⌊(S - (scaledW : ℚ)) / 2⌋, ⌊(S - (scaledH : ℚ)) / 2⌋)

/-- The encoding of a frame-space box into letterboxed model space, as
stated in the round-trip property (spec §8): a frame point `x` maps to
`x * scale + padX`, a frame extent `w` to `w * scale`; the result is
given in the detector's center-size form `(cx, cy, w, h)`. -/
def encodeToModelSpace (scale : ℚ) (padX padY : ℤ) (b : BBox) : ℚ × ℚ × ℚ × ℚ :=
  (b.x * scale + (padX : ℚ) + b.w * scale / 2,
   b.y * scale + (padY : ℚ) + b.h * scale / 2,
   b.w * scale, b.h * scale)

/-- Embeds the coordinate transform of `processDetections`
(src/unnamed/part_004 lines 337-357): center-size to corner form,
remove padding, unscale, then clip to the video bounds
(`bx = max(0, x_orig)`, `bw = min(videoWidth - bx, w_orig)`, ...). -/
def decodeDetectionBox (scale : ℚ) (padX padY : ℤ) (videoW videoH : ℚ)
    (m : ℚ × ℚ × ℚ × ℚ) : ℚ × ℚ × ℚ × ℚ :=
  let cx := m.1
  let cy := m.2.1
  let w := m.2.2.1
  let h := m.2.2.2
  let x_model := cx - w / 2
  let y_model := cy - h / 2
  let x_unpadded := x_model - (padX : ℚ)
  let y_unpadded := y_model - (padY : ℚ)
  let x_orig := x_unpadded / scale
  let y_orig := y_unpadded / scale
  let w_orig := w / scale
  let h_orig := h / scale
  let bx := max 0 x_orig
  let byv := max 0 y_orig
  let bw := min (videoW - bx) w_orig
  let bh := min (videoH - byv) h_orig
  (bx, byv, bw, bh)

/-! ### Parallel OCR engine: one job's pipeline
(src/lib/parallel-ocr.ts `runPipeline`, lines 229-504) -/

/-- A JavaScript error value as inspected by the catch block
(src/lib/parallel-ocr.ts lines 434-439): a `name` and a `message`. -/
structure JsError where
  name : String
  message : String
deriving DecidableEq, Repr

/-- Embeds the `isAbortError` test (src/lib/parallel-ocr.ts
lines 434-439): name `AbortError` (Error or DOMException), message
equal to `AbortError`, or message containing `aborted`
(`error.message.includes('aborted')`; the `String(error)` clause is
subsumed by the message clause in this model). -/
def isAbortError (e : JsError) : Bool :=
  e.name = "AbortError" || e.message = "AbortError" || strIncludes e.message "aborted"

/-- The terminal value a job resolves with
(src/lib/parallel-ocr.ts lines 23-31; the wall-clock fields
`processingTime` and `timingLog` are outside the model). -/
structure OCRPipelineResult where
  objectId : Nat
  text : String
  individualWords : List String
  success : Bool
  wasAborted : Bool
deriving DecidableEq, Repr

/-- The processor state consulted by `runPipeline`: the
requested-bus-number set (lines 83, 116-119), and whether the match
and validation callbacks are set (lines 95-104). -/
structure ProcessorCfg where
  requestedBusNumbers : List String
  hasMatchCallback : Bool
  hasValidationCallback : Bool
deriving DecidableEq, Repr

/-- Outcome of `response.json()` (src/lib/parallel-ocr.ts line 300):
either the parsed body `{success, text, individualWords}` or a
rejection. -/
inductive JsonOutcome
  | parsed (success : Bool) (text : String) (individualWords : List String)
  | parseError (e : JsError)
deriving DecidableEq, Repr

/-- Outcome of the `fetch('/api/ocr', ...)` call
(src/lib/parallel-ocr.ts lines 281-289): a response with its `ok`
flag and `statusText`, or a rejection (network failure, or the abort
signal firing mid-flight, which rejects with an `AbortError`). -/
inductive FetchOutcome
  | response (ok : Bool) (statusText : String) (body : JsonOutcome)
  | reject (e : JsError)
deriving DecidableEq, Repr

/-- Embeds the catch block of `runPipeline` (src/lib/parallel-ocr.ts
lines 429-492): abort-like errors and JSON-parse errors resolve with
`wasAborted = true`; every other error resolves as a failed non-match
(`success = false`, `text = 'None'`, `wasAborted = false`).  Total on
all errors: nothing rethrows. -/
def catchResult (objectId : Nat) (e : JsError) : OCRPipelineResult :=
  if isAbortError e then ⟨objectId, "None", [], false, true⟩
  else if strIncludes e.message "JSON" then ⟨objectId, "None", [], false, true⟩
  else ⟨objectId, "None", [], false, false⟩

/-- Embeds the word scan of STEP 4 (src/lib/parallel-ocr.ts
lines 350-391): the first word that is non-empty, not `'None'`, and a
member of the requested-bus-number set. -/
def firstMatchWord (requested : List String) (words : List String) : Option String :=
  words.find? fun w => !(w = "" || w = "None") && requested.contains w

/-- What one invocation of `runPipeline` produced: the resolved
result, whether the OCR fetch was issued, whether the stored
validation callback was invoked, and the arguments passed to the
match callback. -/
structure PipelineRun where
  result : OCRPipelineResult
  ocrIssued : Bool
  validationInvoked : Bool
  matchCalls : List String
deriving DecidableEq, Repr

/-- Embeds the body of `runPipeline` (src/lib/parallel-ocr.ts
lines 257-492) as a function of the abort-flag samples at its four
check sites and the fetch outcome.  `abort0` is the STEP 1 pre-check
(line 259), `abort1` the post-`response.ok` check (line 296), `abort2`
the STEP 3 post-OCR check (line 317), `abort3` the STEP 4 guard
(lines 344-345); each samples
`shouldAbortAll || shouldAbortCheck()` at that instant.  The
functional trace mirrors the source: pre-check; fetch; `!response.ok`
throw; abort re-check; JSON parse; `data.text || 'None'` and
`data.individualWords || []` defaulting; STEP 3 abort return; STEP 4
raw-word scan against `requestedBusNumbers` firing the match
callback; STEP 5 early return on a word match; STEP 6 non-match
return.  No call to the stored validation callback occurs anywhere in
the source body, so `validationInvoked` is `false` on every path. -/
def runPipelineBody (cfg : ProcessorCfg) (objectId : Nat)
    (abort0 abort1 abort2 abort3 : Bool) (fetch : FetchOutcome) : PipelineRun :=
  if abort0 then
    ⟨⟨objectId, "None", [], false, true⟩, false, false, []⟩
  else
    match fetch with
    | .reject e => ⟨catchResult objectId e, true, false, []⟩
    | .response ok statusText body =>
      if !ok then
        ⟨catchResult objectId ⟨"Error", "OCR API error: " ++ statusText⟩, true, false, []⟩
      else if abort1 then
        ⟨catchResult objectId ⟨"Error", "AbortError"⟩, true, false, []⟩
      else
        match body with
        | .parseError e => ⟨catchResult objectId e, true, false, []⟩
        | .parsed success text words =>
          let normalizedText := if text = "" then "None" else text
          if abort2 then
            ⟨⟨objectId, normalizedText, words, success, true⟩, true, false, []⟩
          else if words ≠ [] ∧ cfg.requestedBusNumbers ≠ [] ∧
              cfg.hasMatchCallback ∧ abort3 = false then
            match firstMatchWord cfg.requestedBusNumbers words with
            | some w => ⟨⟨objectId, w, words, success, false⟩, true, false, [w]⟩
            | none =>
              ⟨⟨objectId, String.intercalate " " words, words, success, false⟩, true, false, []⟩
          else
            ⟨⟨objectId, String.intercalate " " words, words, success, false⟩, true, false, []⟩

/-- Embeds the queue purge of `abortAll` (src/lib/parallel-ocr.ts
lines 140-152): each queued context is resolved with
`text: 'None'`, `success: false`, `wasAborted: true`. -/
def abortAllResolutions (queuedIds : List Nat) : List OCRPipelineResult :=
  queuedIds.map fun id => ⟨id, "None", [], false, true⟩

/-! ### Parallel OCR engine: processor-level trace semantics
(src/lib/parallel-ocr.ts `processPipeline` lines 178-199,
`processQueue` lines 204-224, `abortAll` lines 124-156,
`reset` lines 161-169, and the slot accounting of `runPipeline`
lines 250-251 and 493-503) -/

/-- The observable scheduler state of `ParallelOCRProcessor`.
`runningCount`, `queue` and `shouldAbortAll` are the class fields of
those names; `running` is the set of jobs whose `runPipeline`
invocation has entered (slot acquired, line 250) but whose `finally`
block (line 493) has not yet executed; `ocrIssued` records jobs whose
pre-check passed and whose fetch was therefore submitted; `purged`
records queued jobs resolved as aborted by `abortAll`; `seen` records
submitted ids (each detection submits a distinct job). -/
structure ProcState where
  maxThreads : Nat
  runningCount : Int
  queue : List Nat
  running : List Nat
  shouldAbortAll : Bool
  ocrIssued : List Nat
  purged : List Nat
  seen : List Nat
deriving DecidableEq, Repr

/-- A job entering `runPipeline`: the slot is acquired
(`runningCount++`, line 250) and, in the same synchronous block, the
STEP 1 pre-check runs and — when the abort flag is clear — the OCR
fetch is submitted (lines 259, 281). -/
def startJob (s : ProcState) (id : Nat) : ProcState :=
  { s with
    runningCount := s.runningCount + 1
    running := s.running ++ [id]
    ocrIssued := if s.shouldAbortAll then s.ocrIssued else s.ocrIssued ++ [id] }

/-- Embeds `processQueue` (src/lib/parallel-ocr.ts lines 204-224):
return if the queue is empty or `runningCount >= max`; otherwise
shift the oldest item and run it. -/
def processQueue (s : ProcState) : ProcState :=
  match s.queue with
  | [] => s
  | id :: rest =>
    if s.runningCount < (s.maxThreads : Int) then startJob { s with queue := rest } id
    else s

/-- Events of the cooperative scheduling model.  `submit` is a call to
`processPipeline`; `finish` is a job's `finally` block executing
(slot release plus `processQueue`); `abortAll` and `reset` are the
corresponding methods. -/
inductive PEvent
  | submit (id : Nat)
  | finish (id : Nat)
  | abortAll
  | reset
deriving DecidableEq, Repr

/-- One atomic step of the processor.  `submit`
(src/lib/parallel-ocr.ts lines 178-199): enqueue when
`runningCount >= maxConcurrentThreads`, else run immediately; ids are
submitted at most once (`seen` guard).  `finish`
(lines 493-503): `runningCount--` and `processQueue()`.  `abortAll`
(lines 124-156): set the abort flag, resolve and clear the queue, and
set `runningCount = 0` — note that jobs still inside `runPipeline`
remain running until their own `finally` executes.  `reset`
(lines 161-169): clear the abort flag, the queue and the counter. -/
def pstep (s : ProcState) : PEvent → ProcState
  | .submit id =>
    if s.seen.contains id then s
    else
      let s' := { s with seen := s.seen ++ [id] }
      if (s'.maxThreads : Int) ≤ s'.runningCount then { s' with queue := s'.queue ++ [id] }
      else startJob s' id
  | .finish id =>
    if s.running.contains id then
      processQueue { s with runningCount := s.runningCount - 1, running := s.running.erase id }
    else s
  | .abortAll =>
    { s with
      shouldAbortAll := true
      purged := s.purged ++ s.queue
      queue := []
      runningCount := 0 }
  | .reset =>
    { s with shouldAbortAll := false, queue := [], runningCount := 0 }

/-- Run a trace of processor events from a state. -/
def runTrace (s : ProcState) (trace : List PEvent) : ProcState :=
  trace.foldl pstep s

/-- The freshly constructed processor
(src/lib/parallel-ocr.ts lines 73-90, 592): empty queue, no running
jobs, abort flag clear. -/
def pInit (maxThreads : Nat) : ProcState :=
  ⟨maxThreads, 0, [], [], false, [], [], []⟩

/-! ### Announcement logic
(src/components/app/CameraComponent.tsx `matchCallback` lines 145-201
and `playTTSAnnouncementImmediate` lines 466-580) -/

/-- Where one matching job stands in the announcement logic.
`start`: its match callback body is about to run (the candidate
equals the target, line 146-148).  `checkTTS`: the match-found flag
has been set (line 156) and the job is past the `await ttsTrigger()`
suspension, about to enter `playTTSAnnouncementImmediate`.
`waitingTTS`: it passed the announced-set check, added the bus number
to the set and issued the TTS fetch (lines 467-478), and is awaiting
the response/playback.  `done played`: terminal, with `played = true`
exactly when its playback started. -/
inductive AnnPhase
  | start
  | checkTTS
  | waitingTTS
  | done (played : Bool)
deriving DecidableEq, Repr

/-- The shared session state touched by the announcement logic:
`matchFound` is `matchFoundRef.current`; `announced` is whether the
target bus number is in `announcedBusesRef.current`; `ttsRequests`
counts TTS fetches issued; `playbacks` counts playbacks started. -/
structure AnnState where
  matchFound : Bool
  announced : Bool
  ttsRequests : Nat
  playbacks : Nat
  jobs : List AnnPhase
deriving DecidableEq, Repr

/-- One atomic step of job `i` under single-threaded cooperative
scheduling; atomic sections are the code between `await` points.
From `start` (CameraComponent.tsx lines 149-159): set
`matchFoundRef.current = true` synchronously, then suspend on
`await ttsTrigger()`.  From `checkTTS`
(lines 466-478): `if (announcedBusesRef.current.has(busNumber))
return;` else `announcedBusesRef.current.add(busNumber)` and issue
the TTS fetch — check, add and fetch issue share one atomic section
(no `await` between them).  From `waitingTTS`: on success the
playback starts (lines 493-558); on failure
(`!response.ok`, decode/play error) the bus number is deleted from
the announced set (lines 486, 563, 574) and no playback occurs.
`outcomes i` is whether job `i`'s TTS request succeeds. -/
def annStep (outcomes : Nat → Bool) (s : AnnState) (i : Nat) : AnnState :=
  match s.jobs.get? i with
  | none => s
  | some .start =>
    { s with matchFound := true, jobs := s.jobs.set i .checkTTS }
  | some .checkTTS =>
    if s.announced then { s with jobs := s.jobs.set i (.done false) }
    else
      { s with
        announced := true
        ttsRequests := s.ttsRequests + 1
        jobs := s.jobs.set i .waitingTTS }
  | some .waitingTTS =>
    if outcomes i then
      { s with playbacks := s.playbacks + 1, jobs := s.jobs.set i (.done true) }
    else
      { s with announced := false, jobs := s.jobs.set i (.done false) }
  | some (.done _) => s

/-- Run an interleaving (a list of job indices) of announcement
steps. -/
def annRun (outcomes : Nat → Bool) (s : AnnState) (trace : List Nat) : AnnState :=
  trace.foldl (annStep outcomes) s

/-- Session start for `n` concurrently-resolving matching jobs: flag
clear, announced set empty (CameraComponent.tsx lines 124-128), no
TTS activity yet. -/
def annInit (n : Nat) : AnnState :=
  ⟨false, false, 0, 0, List.replicate n .start⟩

/-- Number of jobs currently holding the announced-set "slot"
(between add and resolution). -/
def waitingCount (s : AnnState) : Nat :=
  s.jobs.count AnnPhase.waitingTTS

/-! ## Claims -/

/-- C10: with an empty (or absent) whitelist of valid routes, the
Match Validator returns `'None'` for every input text and every list
of individual words (CameraComponent.tsx lines 243-247). -/
theorem emptyWhitelistRejects (ocrTextRaw : String) (words : List String) :
    findClosestValidRoute [] ocrTextRaw words = "None" := rfl

/-- C5 counterexample: the claim "every raw input whose normalized
text has fewer than 2 characters is rejected as `'None'`" fails on
the code: `findClosestValidRoute` has no length check, and the
1-character normalized text `"5"` matches the whitelist entry `"5"`
exactly. -/
theorem shortTextCounterexample :
    (normalizeBusNumber "5").length = 1 ∧
    findClosestValidRoute ["5"] "5" [] = "5" ∧
    findClosestValidRoute ["5"] "5" [] ≠ "None" := by
  refine ⟨rfl, rfl, ?_⟩
  decide

/-- C5 amended: the validator rejects immediately exactly when the
normalized text is empty or equals `'NONE'`
(CameraComponent.tsx line 250); there is no fewer-than-2-characters
rejection, and a 1-character normalized text proceeds through the
matching tiers. -/
theorem normalizedEmptyOrNoneRejects (busRoutes : List String) (raw : String)
    (words : List String)
    (h : normalizeBusNumber raw = "" ∨ normalizeBusNumber raw = "NONE") :
    findClosestValidRoute busRoutes raw words = "None" := by
  unfold findClosestValidRoute
  split
  · rfl
  · rw [if_pos h]

/-- Witness for the C5 amended theorem at the concrete input `"@!"`
(normalizes to the empty string) with whitelist `["123"]`. -/
theorem normalizedEmptyOrNoneRejectsWitness :
    (normalizeBusNumber "@!" = "" ∨ normalizeBusNumber "@!" = "NONE") ∧
    findClosestValidRoute ["123"] "@!" ["x"] = "None" :=
  ⟨Or.inl rfl, normalizedEmptyOrNoneRejects ["123"] "@!" ["x"] (Or.inl rfl)⟩

/-- C6 counterexample: the claim that a transposed
`[boxes, attributes]` buffer (8400 boxes, 6 attributes) is read as
`outputData[i * numAttr + attr]` fails: both decoders select the
channel-first layout for total length `8400 * 6` (the transposed
branch is unreachable, since a transposed buffer has the same total
length), so box 1, attribute 0 is read at flat index
`0 * 8400 + 1 = 1`, not at `1 * 6 + 0 = 6`. -/
theorem transposedReadCounterexample :
    (inferLayout (8400 * 6)).transposed = false ∧
    (inferLayoutTfliteLoader (8400 * 6)).transposed = false ∧
    attrAt (inferLayout (8400 * 6)) (fun k => (k : ℚ)) 1 0 = ((1 : Nat) : ℚ) ∧
    (fun k => ((k : Nat) : ℚ)) (1 * (inferLayout (8400 * 6)).numAttr + 0) = ((6 : Nat) : ℚ) ∧
    ((1 : Nat) : ℚ) ≠ ((6 : Nat) : ℚ) := by
  refine ⟨rfl, rfl, rfl, rfl, ?_⟩
  decide

/-- C6 amended: both decoders infer the layout from the total buffer
length but always read channel-first: `inferLayout` (part_004) always
returns `⟨8400, total / 8400, false⟩`, and the tflite-loader variant
returns a channel-first layout with 8400 boxes, falling back to
attribute count `total / 8400` when no 5- or 6-attribute
factorization at 8400 anchors matches; the read is always
`outputData[attr * 8400 + i]`. -/
theorem layoutAlwaysChannelFirst (total : Nat) :
    inferLayout total = ⟨8400, total / 8400, false⟩ ∧
    (inferLayoutTfliteLoader total).transposed = false ∧
    (inferLayoutTfliteLoader total).numBoxes = 8400 ∧
    (total ≠ 6 * 8400 → total ≠ 5 * 8400 →
      inferLayoutTfliteLoader total = ⟨8400, total / 8400, false⟩) ∧
    (∀ (outputData : Nat → ℚ) (i a : Nat),
      attrAt (inferLayout total) outputData i a = outputData (a * 8400 + i)) := by
  have h1 : inferLayout total = ⟨8400, total / 8400, false⟩ := by
    unfold inferLayout
    split
    · rename_i h
      subst h
      rfl
    · rfl
  refine ⟨h1, ?_, ?_, ?_, ?_⟩
  · by_cases h6 : 6 * 8400 = total <;> by_cases h5 : 5 * 8400 = total <;>
      simp [inferLayoutTfliteLoader, guessLayout, h6, h5]
  · by_cases h6 : 6 * 8400 = total <;> by_cases h5 : 5 * 8400 = total <;>
      simp [inferLayoutTfliteLoader, guessLayout, h6, h5]
  · intro h6 h5
    have h6' : ¬(6 * 8400 = total) := by omega
    have h5' : ¬(5 * 8400 = total) := by omega
    simp [inferLayoutTfliteLoader, guessLayout, h6', h5']
  · intro outputData i a
    rw [h1]
    rfl

/-- Witness for the conditional conjunct of the C6 amended theorem at
the concrete total length `100`. -/
theorem layoutAlwaysChannelFirstWitness :
    inferLayoutTfliteLoader 100 = ⟨8400, 100 / 8400, false⟩ :=
  (layoutAlwaysChannelFirst 100).2.2.2.1 (by decide) (by decide)

/-- C1 (code bug): the engine's `runPipeline` never invokes the
validation callback stored by `setValidationCallback`, even though
the file's own documentation (parallel-ocr.ts lines 5-6 and 173)
states the per-thread pipeline is OCR → Validation → Match Check and
`getStats` reports a validation duration that is never recorded.  At
a successful OCR response whose word list contains a requested bus
number, the match check consumes the raw word directly
(`requestedBusNumbers.has(word)`, line 354) and passes it unvalidated
to the match callback; on no path is the validation callback
invoked. -/
theorem validationCallbackNeverInvoked :
    (runPipelineBody ⟨["50"], true, true⟩ 7 false false false false
      (.response true "OK" (.parsed true "50" ["50"]))).validationInvoked = false ∧
    (runPipelineBody ⟨["50"], true, true⟩ 7 false false false false
      (.response true "OK" (.parsed true "50" ["50"]))).matchCalls = ["50"] ∧
    (runPipelineBody ⟨["50"], true, true⟩ 7 false false false false
      (.response true "OK" (.parsed true "50" ["50"]))).result.text = "50" ∧
    (∀ (cfg : ProcessorCfg) (objectId : Nat) (a0 a1 a2 a3 : Bool) (f : FetchOutcome),
      (runPipelineBody cfg objectId a0 a1 a2 a3 f).validationInvoked = false) := by
  refine ⟨by decide, by decide, by decide, ?_⟩
  intro cfg objectId a0 a1 a2 a3 f
  unfold runPipelineBody
  repeat' split <;> try rfl


/-- The slot counter agrees with the set of running jobs and respects
the bound; this holds along any execution that contains no `abortAll`
or `reset` call. -/
def countInv (s : ProcState) : Prop :=
  s.runningCount = (s.running.length : Int) ∧ s.running.length ≤ s.maxThreads

/-- `startJob` keeps the counter in sync and, when invoked below
capacity, respects the bound. -/
lemma countInv_startJob {s : ProcState} {id : Nat}
    (h : s.runningCount = (s.running.length : Int))
    (hlt : s.runningCount < (s.maxThreads : Int)) :
    countInv (startJob s id) := by
  unfold countInv startJob
  simp only [List.length_append, List.length_cons, List.length_nil]
  omega

/-- `processQueue` preserves the counter invariant: it starts the
dequeued job only when `runningCount < max`. -/
lemma countInv_processQueue {s : ProcState} (hc : countInv s) :
    countInv (processQueue s) := by
  obtain ⟨h1, h2⟩ := hc
  unfold processQueue
  split
  · exact ⟨h1, h2⟩
  · split
    · rename_i hlt
      exact countInv_startJob h1 hlt
    · exact ⟨h1, h2⟩

/-- `maxConcurrentThreads` is `readonly` in the source
(parallel-ocr.ts line 79): no event changes it. -/
lemma maxThreads_processQueue (s : ProcState) :
    (processQueue s).maxThreads = s.maxThreads := by
  unfold processQueue
  split
  · rfl
  · split <;> rfl

/-- No event changes the configured maximum. -/
lemma maxThreads_pstep (s : ProcState) (e : PEvent) :
    (pstep s e).maxThreads = s.maxThreads := by
  cases e with
  | submit id =>
    simp only [pstep]
    split
    · rfl
    · split <;> rfl
  | finish id =>
    simp only [pstep]
    split
    · rw [maxThreads_processQueue]
    · rfl
  | abortAll => rfl
  | reset => rfl

/-- Submit and finish events preserve `countInv`. -/
lemma countInv_pstep {s : ProcState} {e : PEvent}
    (he : e ≠ PEvent.abortAll ∧ e ≠ PEvent.reset)
    (h : countInv s) : countInv (pstep s e) := by
  obtain ⟨h1, h2⟩ := h
  cases e with
  | submit id =>
    simp only [pstep]
    split
    · exact ⟨h1, h2⟩
    · split
      · exact ⟨h1, h2⟩
      · rename_i hcap
        exact countInv_startJob h1 (by dsimp only at hcap ⊢; omega)
  | finish id =>
    simp only [pstep]
    split
    · rename_i hmem
      have hm : id ∈ s.running := by simp at hmem; exact hmem
      have hlen : (s.running.erase id).length = s.running.length - 1 :=
        List.length_erase_of_mem hm
      have hpos : 1 ≤ s.running.length := List.length_pos.mpr (List.ne_nil_of_mem hm)
      refine countInv_processQueue ⟨?_, ?_⟩
      · dsimp only
        rw [hlen]
        omega
      · dsimp only
        rw [hlen]
        omega
    · exact ⟨h1, h2⟩
  | abortAll => exact absurd rfl he.1
  | reset => exact absurd rfl he.2

/-- `countInv` holds along any abort/reset-free trace. -/
lemma countInv_runTrace {s : ProcState} {trace : List PEvent}
    (h : ∀ e ∈ trace, e ≠ PEvent.abortAll ∧ e ≠ PEvent.reset)
    (hs : countInv s) : countInv (runTrace s trace) := by
  induction trace generalizing s with
  | nil => exact hs
  | cons e rest ih =>
    exact ih (fun x hx => h x (List.mem_cons_of_mem _ hx))
      (countInv_pstep (h e (List.mem_cons_self _ _)) hs)

/-- `maxThreads` is constant along any trace. -/
lemma maxThreads_runTrace (s : ProcState) (trace : List PEvent) :
    (runTrace s trace).maxThreads = s.maxThreads := by
  induction trace generalizing s with
  | nil => rfl
  | cons e rest ih => rw [runTrace, List.foldl_cons, ← runTrace, ih, maxThreads_pstep]

/-- C3 counterexample: the no-more-than-max-running invariant fails
under interleavings that include `abortAll`.  After ten submissions
fill all ten slots, `abortAll` sets `runningCount = 0`
(parallel-ocr.ts line 153) while the ten jobs are still inside
`runPipeline` (their `finally` blocks have not run); an eleventh
submission then sees `runningCount < max` and enters `runPipeline`,
so eleven jobs are in the running state at once. -/
theorem runningExceedsMaxCounterexample :
    (runTrace (pInit 10)
      [.submit 1, .submit 2, .submit 3, .submit 4, .submit 5, .submit 6, .submit 7,
       .submit 8, .submit 9, .submit 10, .abortAll, .submit 11]).running.length = 11 ∧
    (pInit 10).maxThreads = 10 ∧
    ¬((runTrace (pInit 10)
      [.submit 1, .submit 2, .submit 3, .submit 4, .submit 5, .submit 6, .submit 7,
       .submit 8, .submit 9, .submit 10, .abortAll, .submit 11]).running.length ≤
        (pInit 10).maxThreads) := by
  decide

/-- C3 amended: for any burst of submissions and any interleaving of
job completions and queue advancement that contains no `abortAll` or
`reset` call, the number of jobs in the running state never exceeds
`maxConcurrentThreads`: `processPipeline` enqueues when
`runningCount >= max` and `processQueue` starts a dequeued job only
when `runningCount < max`.  (`abortAll`/`reset` break the invariant
by zeroing `runningCount` while running jobs persist, as the
counterexample shows.) -/
theorem runningBoundedWithoutAbortReset (maxThreads : Nat) (trace : List PEvent)
    (h : ∀ e ∈ trace, e ≠ PEvent.abortAll ∧ e ≠ PEvent.reset) :
    (runTrace (pInit maxThreads) trace).running.length ≤ maxThreads := by
  have base : countInv (pInit maxThreads) := ⟨rfl, by simp [pInit]⟩
  have h2 := (countInv_runTrace h base).2
  have hmax : (runTrace (pInit maxThreads) trace).maxThreads = maxThreads :=
    maxThreads_runTrace (pInit maxThreads) trace
  rw [hmax] at h2
  exact h2

/-- Witness for the C3 amended theorem: a concrete abort-free trace
with capacity 2 and three submissions. -/
theorem runningBoundedWithoutAbortResetWitness :
    (∀ e ∈ ([.submit 1, .submit 2, .submit 3, .finish 1, .finish 2] : List PEvent),
      e ≠ PEvent.abortAll ∧ e ≠ PEvent.reset) ∧
    (runTrace (pInit 2)
      [.submit 1, .submit 2, .submit 3, .finish 1, .finish 2]).running.length ≤ 2 :=
  ⟨by decide,
   runningBoundedWithoutAbortReset 2 [.submit 1, .submit 2, .submit 3, .finish 1, .finish 2]
     (by decide)⟩

/-- Bookkeeping invariant relating the queue, the purged set, the
OCR-issued set and the seen set: purged and queued jobs have never
issued an OCR request, and ids flow only submit → (queue →) run. -/
def abortInv (s : ProcState) : Prop :=
  (∀ j ∈ s.purged, j ∉ s.ocrIssued) ∧
  (∀ j ∈ s.queue, j ∉ s.ocrIssued) ∧
  (∀ j ∈ s.queue, j ∈ s.seen) ∧
  (∀ j ∈ s.purged, j ∈ s.seen) ∧
  (∀ j ∈ s.ocrIssued, j ∈ s.seen) ∧
  (∀ j ∈ s.purged, j ∉ s.queue) ∧
  s.queue.Nodup

/-- `startJob` preserves the bookkeeping invariant for a job that was
seen, is not purged and is not queued. -/
lemma abortInv_startJob {s : ProcState} {id : Nat}
    (h1 : ∀ j ∈ s.purged, j ∉ s.ocrIssued)
    (h2 : ∀ j ∈ s.queue, j ∉ s.ocrIssued)
    (h3 : ∀ j ∈ s.queue, j ∈ s.seen)
    (h4 : ∀ j ∈ s.purged, j ∈ s.seen)
    (h5 : ∀ j ∈ s.ocrIssued, j ∈ s.seen)
    (h6 : ∀ j ∈ s.purged, j ∉ s.queue)
    (h7 : s.queue.Nodup)
    (hidseen : id ∈ s.seen)
    (hidp : id ∉ s.purged)
    (hidq : id ∉ s.queue) :
    abortInv (startJob s id) := by
  unfold abortInv startJob
  dsimp only
  refine ⟨?_, ?_, h3, h4, ?_, h6, h7⟩
  · intro j hj
    split
    · exact h1 j hj
    · simp only [List.mem_append, List.mem_singleton]
      rintro (hjo | rfl)
      · exact h1 j hj hjo
      · exact hidp hj
  · intro j hj
    split
    · exact h2 j hj
    · simp only [List.mem_append, List.mem_singleton]
      rintro (hjo | rfl)
      · exact h2 j hj hjo
      · exact hidq hj
  · intro j hj
    revert hj
    split
    · exact fun hj => h5 j hj
    · simp only [List.mem_append, List.mem_singleton]
      rintro (hjo | rfl)
      · exact h5 j hjo
      · exact hidseen

/-- Every event preserves the bookkeeping invariant. -/
lemma abortInv_pstep {s : ProcState} (e : PEvent) (h : abortInv s) :
    abortInv (pstep s e) := by
  obtain ⟨h1, h2, h3, h4, h5, h6, h7⟩ := h
  cases e with
  | submit id =>
    simp only [pstep]
    split
    · exact ⟨h1, h2, h3, h4, h5, h6, h7⟩
    · rename_i hseen
      have hid : id ∉ s.seen := by
        intro hc
        exact hseen (by simpa using hc)
      split
      · refine ⟨h1, ?_, ?_, ?_, ?_, ?_, ?_⟩ <;> dsimp only
        · intro j hj
          rcases List.mem_append.mp hj with hj | hj
          · exact h2 j hj
          · rw [List.mem_singleton] at hj
            subst hj
            exact fun hc => hid (h5 j hc)
        · intro j hj
          rcases List.mem_append.mp hj with hj | hj
          · exact List.mem_append_left _ (h3 j hj)
          · exact List.mem_append_right _ hj
        · exact fun j hj => List.mem_append_left _ (h4 j hj)
        · exact fun j hj => List.mem_append_left _ (h5 j hj)
        · intro j hj
          simp only [List.mem_append, List.mem_singleton]
          rintro (hq | rfl)
          · exact h6 j hj hq
          · exact hid (h4 j hj)
        · refine List.Nodup.append h7 (List.nodup_singleton id) ?_
          intro j hjq hjid
          rw [List.mem_singleton] at hjid
          subst hjid
          exact hid (h3 j hjq)
      · refine abortInv_startJob (s := { s with seen := s.seen ++ [id] })
          h1 h2 ?_ ?_ ?_ h6 h7 ?_ ?_ ?_ <;> dsimp only
        · exact fun j hj => List.mem_append_left _ (h3 j hj)
        · exact fun j hj => List.mem_append_left _ (h4 j hj)
        · exact fun j hj => List.mem_append_left _ (h5 j hj)
        · exact List.mem_append_right _ (List.mem_singleton_self id)
        · exact fun hc => hid (h4 id hc)
        · exact fun hc => hid (h3 id hc)
  | finish id =>
    simp only [pstep]
    split
    · unfold processQueue
      dsimp only
      split
      · exact ⟨h1, h2, h3, h4, h5, h6, h7⟩
      · rename_i q rest hq
        split
        · have hqrest : ∀ j ∈ rest, j ∈ s.queue := by
            intro j hj
            rw [hq]
            exact List.mem_cons_of_mem _ hj
          have hqhead : q ∈ s.queue := by
            rw [hq]
            exact List.mem_cons_self _ _
          have hrestnd : rest.Nodup ∧ q ∉ rest := by
            rw [hq] at h7
            exact ⟨h7.of_cons, (List.nodup_cons.mp h7).1⟩
          refine abortInv_startJob ?_ ?_ ?_ ?_ ?_ ?_ ?_ ?_ ?_ ?_ <;> dsimp only
          · exact h1
          · exact fun j hj => h2 j (hqrest j hj)
          · exact fun j hj => h3 j (hqrest j hj)
          · exact h4
          · exact h5
          · exact fun j hj hjr => h6 j hj (hqrest _ hjr)
          · exact hrestnd.1
          · exact h3 q hqhead
          · exact fun hc => h6 q hc hqhead
          · exact hrestnd.2
        · exact ⟨h1, h2, h3, h4, h5, h6, h7⟩
    · exact ⟨h1, h2, h3, h4, h5, h6, h7⟩
  | abortAll =>
    refine ⟨?_, ?_, ?_, ?_, h5, ?_, List.nodup_nil⟩ <;> dsimp only
    · intro j hj
      rcases List.mem_append.mp hj with hj | hj
      · exact h1 j hj
      · exact h2 j hj
    · intro j hj
      exact absurd hj (List.not_mem_nil j)
    · intro j hj
      exact absurd hj (List.not_mem_nil j)
    · intro j hj
      rcases List.mem_append.mp hj with hj | hj
      · exact h4 j hj
      · exact h3 j hj
    · intro j hj
      exact List.not_mem_nil j
  | reset =>
    refine ⟨h1, ?_, ?_, h4, h5, ?_, List.nodup_nil⟩ <;> dsimp only
    · intro j hj
      exact absurd hj (List.not_mem_nil j)
    · intro j hj
      exact absurd hj (List.not_mem_nil j)
    · intro j hj
      exact List.not_mem_nil j

/-- The bookkeeping invariant holds along every trace. -/
lemma abortInv_runTrace (maxThreads : Nat) (trace : List PEvent) :
    abortInv (runTrace (pInit maxThreads) trace) := by
  suffices hgen : ∀ s, abortInv s → abortInv (runTrace s trace) by
    refine hgen _ ?_
    unfold abortInv pInit
    simp
  induction trace with
  | nil => exact fun s hs => hs
  | cons e rest ih => exact fun s hs => ih _ (abortInv_pstep e hs)

/-- C4: abort propagation.  (1) Along every trace, a job purged from
the queue by `abortAll` never issued (and never issues) an OCR
request.  (2) `abortAll` resolves every purged queued job with
`wasAborted = true`, `success = false`, `text = 'None'`.
(3) A job whose STEP 1 pre-check observes the abort flag terminates
aborted without issuing the OCR fetch.  (4) A running job whose fetch
rejects with an abort-classified error terminates aborted.  (5) A job
that observes the flag at the post-`response.ok` check terminates
aborted.  (6) A job that observes the flag at the STEP 3 post-OCR
check terminates aborted.  (7) The OCR fetch is issued only when the
pre-check did not observe the flag. -/
theorem abortPropagation :
    (∀ (maxThreads : Nat) (trace : List PEvent) (j : Nat),
      j ∈ (runTrace (pInit maxThreads) trace).purged →
      j ∉ (runTrace (pInit maxThreads) trace).ocrIssued) ∧
    (∀ (queuedIds : List Nat), ∀ r ∈ abortAllResolutions queuedIds,
      r.wasAborted = true ∧ r.success = false ∧ r.text = "None") ∧
    (∀ (cfg : ProcessorCfg) (objectId : Nat) (a1 a2 a3 : Bool) (f : FetchOutcome),
      (runPipelineBody cfg objectId true a1 a2 a3 f).result.wasAborted = true ∧
      (runPipelineBody cfg objectId true a1 a2 a3 f).ocrIssued = false) ∧
    (∀ (cfg : ProcessorCfg) (objectId : Nat) (a1 a2 a3 : Bool) (e : JsError),
      isAbortError e = true →
      (runPipelineBody cfg objectId false a1 a2 a3 (.reject e)).result.wasAborted = true) ∧
    (∀ (cfg : ProcessorCfg) (objectId : Nat) (a2 a3 : Bool) (st : String) (body : JsonOutcome),
      (runPipelineBody cfg objectId false true a2 a3
        (.response true st body)).result.wasAborted = true) ∧
    (∀ (cfg : ProcessorCfg) (objectId : Nat) (a3 : Bool) (st text : String)
        (success : Bool) (words : List String),
      (runPipelineBody cfg objectId false false true a3
        (.response true st (.parsed success text words))).result.wasAborted = true) ∧
    (∀ (cfg : ProcessorCfg) (objectId : Nat) (a1 a2 a3 : Bool) (f : FetchOutcome),
      (runPipelineBody cfg objectId true a1 a2 a3 f).ocrIssued = false) := by
  refine ⟨?_, ?_, ?_, ?_, ?_, ?_, ?_⟩
  · intro maxThreads trace j hj
    exact (abortInv_runTrace maxThreads trace).1 j hj
  · intro queuedIds r hr
    unfold abortAllResolutions at hr
    obtain ⟨id, _, rfl⟩ := List.mem_map.mp hr
    exact ⟨rfl, rfl, rfl⟩
  · intro cfg objectId a1 a2 a3 f
    exact ⟨rfl, rfl⟩
  · intro cfg objectId a1 a2 a3 e habort
    simp [runPipelineBody, catchResult, habort]
  · intro cfg objectId a2 a3 st body
    rfl
  · intro cfg objectId a3 st text success words
    rfl
  · intro cfg objectId a1 a2 a3 f
    rfl

/-- Witness for C4 at concrete inputs: a two-slot processor where job
3 is queued and purged by `abortAll`; a concrete pre-check abort; a
concrete mid-flight `AbortError` rejection; concrete post-OCR abort
observations. -/
theorem abortPropagationWitness :
    (3 ∈ (runTrace (pInit 2) [.submit 1, .submit 2, .submit 3, .abortAll]).purged ∧
     3 ∉ (runTrace (pInit 2) [.submit 1, .submit 2, .submit 3, .abortAll]).ocrIssued) ∧
    (runPipelineBody ⟨["50"], true, true⟩ 1 true false false false
      (.response true "OK" (.parsed true "50" ["50"]))).result.wasAborted = true ∧
    (runPipelineBody ⟨["50"], true, true⟩ 1 false false false false
      (.reject ⟨"AbortError", "The operation was aborted"⟩)).result.wasAborted = true := by
  refine ⟨⟨by decide, ?_⟩, ?_, ?_⟩
  · exact abortPropagation.1 2 [.submit 1, .submit 2, .submit 3, .abortAll] 3 (by decide)
  · exact (abortPropagation.2.2.1 ⟨["50"], true, true⟩ 1 false false false
      (.response true "OK" (.parsed true "50" ["50"]))).1
  · exact abortPropagation.2.2.2.1 ⟨["50"], true, true⟩ 1 false false false
      ⟨"AbortError", "The operation was aborted"⟩ (by decide)

/-- C9: error handling.  (1) The catch block maps every error that is
neither abort-classified nor a JSON-parse error to the resolved
non-matching failure `⟨'None', [], success := false,
wasAborted := false⟩` — nothing rethrows.  (2) Abort-classified
errors resolve with `wasAborted = true`, as do (3) JSON-parse
errors.  (4) A fetch rejection with an ordinary network error runs
the whole pipeline to that same resolved failure, with the OCR call
recorded as issued.  (5) The guaranteed-cleanup path: a finish event
for a running job always decrements the slot counter, removes the job
from the running set and triggers `processQueue`. -/
theorem jobNeverRejects :
    (∀ (objectId : Nat) (e : JsError),
      isAbortError e = false → strIncludes e.message "JSON" = false →
      catchResult objectId e = ⟨objectId, "None", [], false, false⟩) ∧
    (∀ (objectId : Nat) (e : JsError),
      isAbortError e = true → (catchResult objectId e).wasAborted = true) ∧
    (∀ (objectId : Nat) (e : JsError),
      strIncludes e.message "JSON" = true → (catchResult objectId e).wasAborted = true) ∧
    (∀ (cfg : ProcessorCfg) (objectId : Nat) (a1 a2 a3 : Bool) (e : JsError),
      isAbortError e = false → strIncludes e.message "JSON" = false →
      runPipelineBody cfg objectId false a1 a2 a3 (.reject e) =
        ⟨⟨objectId, "None", [], false, false⟩, true, false, []⟩) ∧
    (∀ (s : ProcState) (id : Nat), id ∈ s.running →
      pstep s (.finish id) =
        processQueue
          { s with runningCount := s.runningCount - 1, running := s.running.erase id }) := by
  refine ⟨?_, ?_, ?_, ?_, ?_⟩
  · intro objectId e h1 h2
    simp [catchResult, h1, h2]
  · intro objectId e h
    simp [catchResult, h]
  · intro objectId e h
    unfold catchResult
    split <;> simp_all
  · intro cfg objectId a1 a2 a3 e h1 h2
    simp [runPipelineBody, catchResult, h1, h2]
  · intro s id h
    have hc : s.running.contains id = true := by
      simpa using h
    simp only [pstep]
    rw [if_pos hc]

/-- Witness for C9 at concrete inputs: a plain network failure
(`TypeError: Failed to fetch`) resolves as the non-matching failure;
an abort rejection resolves aborted; a JSON parse error resolves
aborted; a concrete finish event performs the cleanup. -/
theorem jobNeverRejectsWitness :
    catchResult 4 ⟨"TypeError", "Failed to fetch"⟩ = ⟨4, "None", [], false, false⟩ ∧
    (catchResult 4 ⟨"AbortError", "signal is aborted"⟩).wasAborted = true ∧
    (catchResult 4 ⟨"SyntaxError", "Unexpected end of JSON input"⟩).wasAborted = true ∧
    runPipelineBody ⟨["50"], true, true⟩ 4 false false false false
      (.reject ⟨"TypeError", "Failed to fetch"⟩) =
      ⟨⟨4, "None", [], false, false⟩, true, false, []⟩ ∧
    pstep (pInit 2) (.submit 9) = startJob { pInit 2 with seen := [9] } 9 := by
  refine ⟨?_, ?_, ?_, ?_, by decide⟩
  · exact jobNeverRejects.1 4 ⟨"TypeError", "Failed to fetch"⟩ (by decide) (by decide)
  · exact jobNeverRejects.2.1 4 ⟨"AbortError", "signal is aborted"⟩ (by decide)
  · exact jobNeverRejects.2.2.1 4 ⟨"SyntaxError", "Unexpected end of JSON input"⟩ (by decide)
  · exact jobNeverRejects.2.2.2.1 ⟨["50"], true, true⟩ 4 false false false
      ⟨"TypeError", "Failed to fetch"⟩ (by decide) (by decide)


/-- Counting after a pointwise update: replacing the element `old`
at index `i` by `new` trades one occurrence of `old` for one of
`new`. -/
lemma count_set_get? {l : List AnnPhase} {i : Nat} {old : AnnPhase} (new b : AnnPhase)
    (h : l.get? i = some old) :
    (l.set i new).count b + (if old = b then 1 else 0) =
      l.count b + (if new = b then 1 else 0) := by
  induction l generalizing i with
  | nil => simp at h
  | cons a t ih =>
    cases i with
    | zero =>
      simp only [List.get?] at h
      injection h with h
      subst h
      simp only [List.set, List.count_cons, beq_iff_eq]
      omega
    | succ j =>
      simp only [List.get?] at h
      have hrec := ih (i := j) h
      simp only [List.set, List.count_cons, beq_iff_eq]
      omega

/-- Core announcement invariant: at most one job at a time is
between the announced-set add and its TTS resolution or has
completed a playback, and the announced set holds the bus number
exactly while that is the case. -/
def annInv (s : AnnState) : Prop :=
  waitingCount s + s.playbacks ≤ 1 ∧
  (s.announced = true ↔ waitingCount s + s.playbacks = 1)

/-- Every announcement step preserves the core invariant. -/
lemma annInv_step (outcomes : Nat → Bool) {s : AnnState} (h : annInv s) (i : Nat) :
    annInv (annStep outcomes s i) := by
  obtain ⟨h1, h2⟩ := h
  unfold waitingCount at h1 h2
  unfold annStep
  cases hget : s.jobs.get? i with
  | none => exact ⟨h1, h2⟩
  | some ph =>
    cases ph with
    | start =>
      dsimp only
      have hw := count_set_get? AnnPhase.checkTTS AnnPhase.waitingTTS hget
      simp at hw
      unfold annInv waitingCount
      dsimp only
      rw [hw]
      exact ⟨h1, h2⟩
    | checkTTS =>
      dsimp only
      split
      · have hw := count_set_get? (AnnPhase.done false) AnnPhase.waitingTTS hget
        simp at hw
        unfold annInv waitingCount
        dsimp only
        rw [hw]
        exact ⟨h1, h2⟩
      · rename_i ha
        have hano : s.announced = false := by
          revert ha
          cases s.announced <;> simp
        have hne : ¬(s.jobs.count AnnPhase.waitingTTS + s.playbacks = 1) := by
          intro hc
          have hx := h2.mpr hc
          rw [hano] at hx
          exact Bool.false_ne_true hx
        have hzero : s.jobs.count AnnPhase.waitingTTS + s.playbacks = 0 := by omega
        have hw := count_set_get? AnnPhase.waitingTTS AnnPhase.waitingTTS hget
        simp at hw
        unfold annInv waitingCount
        dsimp only
        constructor
        · omega
        · constructor
          · intro _
            omega
          · intro _
            rfl
    | waitingTTS =>
      dsimp only
      have hmem : AnnPhase.waitingTTS ∈ s.jobs := by
        obtain ⟨hl, hval⟩ := List.get?_eq_some.mp hget
        rw [← hval]
        exact List.get_mem s.jobs i hl
      have hpos : 1 ≤ s.jobs.count AnnPhase.waitingTTS := List.count_pos_iff.mpr hmem
      have hone : s.announced = true := h2.mpr (by omega)
      split
      · have hw := count_set_get? (AnnPhase.done true) AnnPhase.waitingTTS hget
        simp at hw
        unfold annInv waitingCount
        dsimp only
        constructor
        · omega
        · rw [hone]
          constructor
          · intro _
            omega
          · intro _
            rfl
      · have hw := count_set_get? (AnnPhase.done false) AnnPhase.waitingTTS hget
        simp at hw
        unfold annInv waitingCount
        dsimp only
        constructor
        · omega
        · constructor
          · intro hfalse
            exact absurd hfalse Bool.false_ne_true
          · intro hc
            omega
    | done b => exact ⟨h1, h2⟩

/-- Accounting invariant for failure-free runs: the number of TTS
requests equals the number of slot holders plus playbacks, and once
any job is terminal that sum is one. -/
def annInvDone (s : AnnState) : Prop :=
  s.ttsRequests = waitingCount s + s.playbacks ∧
  ((∃ ph ∈ s.jobs, ∃ b, ph = AnnPhase.done b) → waitingCount s + s.playbacks = 1)

/-- When every TTS request succeeds, each step preserves the
accounting invariant. -/
lemma annInvDone_step (outcomes : Nat → Bool) (hall : ∀ i, outcomes i = true)
    {s : AnnState} (hA : annInv s) (hB : annInvDone s) (i : Nat) :
    annInvDone (annStep outcomes s i) := by
  obtain ⟨hA1, hA2⟩ := hA
  obtain ⟨hB1, hB2⟩ := hB
  unfold waitingCount at hA1 hA2 hB1 hB2
  unfold annStep
  cases hget : s.jobs.get? i with
  | none => exact ⟨hB1, hB2⟩
  | some ph =>
    cases ph with
    | start =>
      dsimp only
      have hw := count_set_get? AnnPhase.checkTTS AnnPhase.waitingTTS hget
      simp at hw
      unfold annInvDone waitingCount
      dsimp only
      rw [hw]
      refine ⟨hB1, ?_⟩
      rintro ⟨ph', hmem', b, hb⟩
      rcases List.mem_or_eq_of_mem_set hmem' with hin | heq
      · exact hB2 ⟨ph', hin, b, hb⟩
      · rw [heq] at hb
        exact nomatch hb
    | checkTTS =>
      dsimp only
      split
      · rename_i ha
        have hw := count_set_get? (AnnPhase.done false) AnnPhase.waitingTTS hget
        simp at hw
        unfold annInvDone waitingCount
        dsimp only
        rw [hw]
        exact ⟨hB1, fun _ => hA2.mp ha⟩
      · rename_i ha
        have hano : s.announced = false := by
          revert ha
          cases s.announced <;> simp
        have hne : ¬(s.jobs.count AnnPhase.waitingTTS + s.playbacks = 1) := by
          intro hc
          have hx := hA2.mpr hc
          rw [hano] at hx
          exact Bool.false_ne_true hx
        have hzero : s.jobs.count AnnPhase.waitingTTS + s.playbacks = 0 := by omega
        have hw := count_set_get? AnnPhase.waitingTTS AnnPhase.waitingTTS hget
        simp at hw
        unfold annInvDone waitingCount
        dsimp only
        constructor
        · omega
        · intro _
          omega
    | waitingTTS =>
      dsimp only
      have hmem : AnnPhase.waitingTTS ∈ s.jobs := by
        obtain ⟨hl, hval⟩ := List.get?_eq_some.mp hget
        rw [← hval]
        exact List.get_mem s.jobs i hl
      have hpos : 1 ≤ s.jobs.count AnnPhase.waitingTTS := List.count_pos_iff.mpr hmem
      split
      · have hw := count_set_get? (AnnPhase.done true) AnnPhase.waitingTTS hget
        simp at hw
        unfold annInvDone waitingCount
        dsimp only
        constructor
        · omega
        · intro _
          omega
      · rename_i hout
        exact absurd (hall i) hout
    | done b => exact ⟨hB1, hB2⟩

/-- The core invariant holds along every interleaving. -/
lemma annInv_run (outcomes : Nat → Bool) {s : AnnState} (hA : annInv s)
    (trace : List Nat) : annInv (annRun outcomes s trace) := by
  induction trace generalizing s with
  | nil => exact hA
  | cons i rest ih => exact ih (annInv_step outcomes hA i)

/-- Both invariants hold along every failure-free interleaving. -/
lemma annInvs_run (outcomes : Nat → Bool) (hall : ∀ i, outcomes i = true)
    {s : AnnState} (hA : annInv s) (hB : annInvDone s) (trace : List Nat) :
    annInv (annRun outcomes s trace) ∧ annInvDone (annRun outcomes s trace) := by
  induction trace generalizing s with
  | nil => exact ⟨hA, hB⟩
  | cons i rest ih =>
    exact ih (annInv_step outcomes hA i) (annInvDone_step outcomes hall hA hB i)

/-- One step never changes the number of jobs. -/
lemma annStep_length (outcomes : Nat → Bool) (s : AnnState) (i : Nat) :
    (annStep outcomes s i).jobs.length = s.jobs.length := by
  unfold annStep
  cases hget : s.jobs.get? i with
  | none => rfl
  | some ph =>
    cases ph with
    | start => simp
    | checkTTS =>
      dsimp only
      split <;> simp
    | waitingTTS =>
      dsimp only
      split <;> simp
    | done b => rfl

/-- A run never changes the number of jobs. -/
lemma annRun_length (outcomes : Nat → Bool) (s : AnnState) (trace : List Nat) :
    (annRun outcomes s trace).jobs.length = s.jobs.length := by
  induction trace generalizing s with
  | nil => rfl
  | cons i rest ih =>
    rw [annRun, List.foldl_cons, ← annRun, ih, annStep_length]

/-- Both invariants hold at session start. -/
lemma annInit_invs (n : Nat) : annInv (annInit n) ∧ annInvDone (annInit n) := by
  have hcount : waitingCount (annInit n) = 0 := by
    unfold waitingCount annInit
    simp [List.count_replicate]
  refine ⟨⟨?_, ?_⟩, ?_, ?_⟩
  · rw [hcount]
    simp [annInit]
  · rw [hcount]
    simp [annInit]
  · rw [hcount]
    rfl
  · rintro ⟨ph, hmem, b, hb⟩
    have := List.eq_of_mem_replicate hmem
    rw [this] at hb
    exact nomatch hb

/-- C2: single-announcement invariant.  For every number of matching
jobs, every interleaving and every assignment of TTS outcomes, at
most one playback ever starts; and when every TTS request succeeds,
at least two jobs race for the same target, and the interleaving runs
every job to a terminal phase, exactly one playback starts and
exactly one TTS request is issued.  The guarantee rests on the
announced-set check-and-add being a single atomic section before the
TTS request is issued, and on the match-found flag being set
synchronously. -/
theorem singleAnnouncement (n : Nat) (trace : List Nat) (outcomes : Nat → Bool) :
    (annRun outcomes (annInit n) trace).playbacks ≤ 1 ∧
    ((∀ i, outcomes i = true) → 2 ≤ n →
      (∀ ph ∈ (annRun outcomes (annInit n) trace).jobs, ∃ b, ph = AnnPhase.done b) →
      (annRun outcomes (annInit n) trace).playbacks = 1 ∧
      (annRun outcomes (annInit n) trace).ttsRequests = 1) := by
  constructor
  · have hA := annInv_run outcomes (annInit_invs n).1 trace
    have := hA.1
    omega
  · intro hall hn hdone
    obtain ⟨hA, hB⟩ := annInvs_run outcomes hall (annInit_invs n).1 (annInit_invs n).2 trace
    have hW : waitingCount (annRun outcomes (annInit n) trace) = 0 := by
      unfold waitingCount
      rw [List.count_eq_zero]
      intro hmem
      obtain ⟨b, hb⟩ := hdone _ hmem
      exact nomatch hb
    have hlen : (annRun outcomes (annInit n) trace).jobs.length = n := by
      rw [annRun_length]
      simp [annInit]
    have hne : (annRun outcomes (annInit n) trace).jobs ≠ [] := by
      intro hnil
      rw [hnil] at hlen
      simp at hlen
      omega
    obtain ⟨ph, hph⟩ := List.exists_mem_of_ne_nil _ hne
    have hsum := hB.2 ⟨ph, hph, hdone ph hph⟩
    have hreq := hB.1
    constructor
    · omega
    · omega

/-- Witness for C2: two jobs, all TTS requests succeeding, under the
interleaving job0-start, job0-enter, job1-start, job1-skip,
job0-playback: exactly one playback and one TTS request. -/
theorem singleAnnouncementWitness :
    (∀ ph ∈ (annRun (fun _ => true) (annInit 2) [0, 0, 1, 1, 0]).jobs,
      ∃ b, ph = AnnPhase.done b) ∧
    (annRun (fun _ => true) (annInit 2) [0, 0, 1, 1, 0]).playbacks = 1 ∧
    (annRun (fun _ => true) (annInit 2) [0, 0, 1, 1, 0]).ttsRequests = 1 :=
  ⟨by decide,
   (singleAnnouncement 2 [0, 0, 1, 1, 0] (fun _ => true)).2 (fun _ => rfl) (by decide)
     (by decide)⟩

/-- IoU is symmetric. -/
lemma iou_comm (a b : BBox) : iou a b = iou b a := by
  simp only [iou]
  rw [min_comm (a.x + a.w), max_comm a.x, min_comm (a.y + a.h), max_comm a.y,
    add_comm (a.w * a.h)]

/-- The greedy NMS loop returns a sublist of the accumulator followed
by the candidates. -/
lemma nmsLoop_sublist (thr : ℚ) :
    ∀ (l keep : List Detection), List.Sublist (nmsLoop thr keep l) (keep ++ l)
  | [], keep => by simp [nmsLoop]
  | d :: rest, keep => by
    unfold nmsLoop
    split
    · have h := nmsLoop_sublist thr rest (keep ++ [d])
      simpa [List.append_assoc] using h
    · have h := nmsLoop_sublist thr rest keep
      exact h.trans ((List.append_sublist_append_left keep).mpr (List.sublist_cons_self d rest))

/-- The kept boxes are pairwise IoU-compatible. -/
lemma nmsLoop_pairwise (thr : ℚ) :
    ∀ (l keep : List Detection),
      keep.Pairwise (fun a b => iou a.bbox b.bbox ≤ thr) →
      (nmsLoop thr keep l).Pairwise (fun a b => iou a.bbox b.bbox ≤ thr)
  | [], _, h => h
  | d :: rest, keep, h => by
    unfold nmsLoop
    split
    · rename_i hall
      refine nmsLoop_pairwise thr rest (keep ++ [d]) ?_
      rw [List.pairwise_append]
      refine ⟨h, List.pairwise_singleton _ _, ?_⟩
      intro a ha b hb
      rw [List.mem_singleton] at hb
      subst hb
      rw [iou_comm]
      exact hall a ha
    · exact nmsLoop_pairwise thr rest keep h

/-- On a pairwise-compatible candidate list (whose members are also
compatible with the accumulator), the greedy loop keeps everything. -/
lemma nmsLoop_of_pairwise (thr : ℚ) :
    ∀ (l keep : List Detection),
      l.Pairwise (fun a b => iou a.bbox b.bbox ≤ thr) →
      (∀ d ∈ l, ∀ k ∈ keep, iou d.bbox k.bbox ≤ thr) →
      nmsLoop thr keep l = keep ++ l
  | [], keep, _, _ => by simp [nmsLoop]
  | d :: rest, keep, hp, hcompat => by
    unfold nmsLoop
    rw [if_pos (fun k hk => hcompat d (List.mem_cons_self _ _) k hk)]
    rw [nmsLoop_of_pairwise thr rest (keep ++ [d]) hp.of_cons ?_]
    · simp
    · intro e he k hk
      rcases List.mem_append.mp hk with hk | hk
      · exact hcompat e (List.mem_cons_of_mem _ he) k hk
      · rw [List.mem_singleton] at hk
        subst hk
        rw [iou_comm]
        exact (List.pairwise_cons.mp hp).1 e he

/-- The confidence comparison is transitive. -/
lemma confGE_trans : ∀ (a b c : Detection), confGE a b → confGE b c → confGE a c := by
  intro a b c hab hbc
  simp only [confGE, decide_eq_true_eq] at *
  exact le_trans hbc hab

/-- The confidence comparison is total. -/
lemma confGE_total : ∀ (a b : Detection), confGE a b || confGE b a := by
  intro a b
  simp only [confGE, Bool.or_eq_true, decide_eq_true_eq]
  exact le_total b.confidence a.confidence

/-- C7: non-max suppression processes boxes in descending confidence
order and keeps a box exactly when its IoU with every already-kept
box is ≤ the threshold; consequently it is idempotent — applying
`applyNMS` to its own output returns the same list — no two kept
boxes have IoU above the threshold, and the output is sorted by
descending confidence. -/
theorem nmsIdempotent (thr : ℚ) (dets : List Detection) :
    applyNMS thr (applyNMS thr dets) = applyNMS thr dets ∧
    (applyNMS thr dets).Pairwise (fun a b => iou a.bbox b.bbox ≤ thr) ∧
    (applyNMS thr dets).Pairwise (fun a b => b.confidence ≤ a.confidence) := by
  have hsorted := @List.sorted_mergeSort Detection confGE confGE_trans confGE_total dets
  have hpair : (applyNMS thr dets).Pairwise (fun a b => iou a.bbox b.bbox ≤ thr) :=
    nmsLoop_pairwise thr _ [] List.Pairwise.nil
  have hsub : List.Sublist (applyNMS thr dets) (dets.mergeSort confGE) := by
    have h := nmsLoop_sublist thr (dets.mergeSort confGE) []
    simpa [applyNMS] using h
  have houtSorted : (applyNMS thr dets).Pairwise fun a b => confGE a b :=
    List.Pairwise.sublist hsub hsorted
  refine ⟨?_, hpair, ?_⟩
  · show nmsLoop thr [] ((applyNMS thr dets).mergeSort confGE) = applyNMS thr dets
    rw [List.mergeSort_of_sorted houtSorted]
    rw [nmsLoop_of_pairwise thr _ [] hpair (fun d _ k hk => absurd hk (List.not_mem_nil k))]
    simp
  · refine houtSorted.imp ?_
    intro a b hc
    simpa [confGE, decide_eq_true_eq] using hc

/-- Round-trip of the letterbox transform for any positive scale: the
decode of `processDetections` (undo padding, unscale, clip) exactly
inverts the model-space encoding on boxes that lie fully inside the
frame. -/
lemma decode_encode (scale : ℚ) (padX padY : ℤ) (videoW videoH : ℚ) (b : BBox)
    (hs : 0 < scale) (hx : 0 ≤ b.x) (hy : 0 ≤ b.y)
    (hxw : b.x + b.w ≤ videoW) (hyh : b.y + b.h ≤ videoH) :
    decodeDetectionBox scale padX padY videoW videoH (encodeToModelSpace scale padX padY b) =
      (b.x, b.y, b.w, b.h) := by
  have hsne : scale ≠ 0 := ne_of_gt hs
  unfold decodeDetectionBox encodeToModelSpace
  dsimp only
  have e1 : b.x * scale + (padX : ℚ) + b.w * scale / 2 - b.w * scale / 2 - (padX : ℚ) =
      b.x * scale := by ring
  have e2 : b.y * scale + (padY : ℚ) + b.h * scale / 2 - b.h * scale / 2 - (padY : ℚ) =
      b.y * scale := by ring
  rw [e1, e2, mul_div_cancel_right₀ b.x hsne, mul_div_cancel_right₀ b.y hsne,
    mul_div_cancel_right₀ b.w hsne, mul_div_cancel_right₀ b.h hsne,
    max_eq_right hx, max_eq_right hy,
    min_eq_right (by linarith : b.w ≤ videoW - b.x),
    min_eq_right (by linarith : b.h ≤ videoH - b.y)]

/-- C8: coordinate round-trip.  For a positive frame and target size
and a box fully inside the frame, encoding the box into letterboxed
model space with the parameters of `preprocessImage`
(`scale = min(S/Wsrc, S/Hsrc)`, `padX = floor((S - round(Wsrc·scale))/2)`,
likewise for Y) and decoding it back with `processDetections`'s
transform (subtract padding, divide by scale, clip to frame bounds)
recovers the original box exactly (hence within any floating-point
tolerance). -/
theorem letterboxRoundTrip (S Wsrc Hsrc : ℚ) (b : BBox)
    (hS : 0 < S) (hW : 0 < Wsrc) (hH : 0 < Hsrc)
    (hx : 0 ≤ b.x) (hy : 0 ≤ b.y)
    (hxw : b.x + b.w ≤ Wsrc) (hyh : b.y + b.h ≤ Hsrc) :
    decodeDetectionBox (letterboxParams S Wsrc Hsrc).1 (letterboxParams S Wsrc Hsrc).2.1
        (letterboxParams S Wsrc Hsrc).2.2 Wsrc Hsrc
        (encodeToModelSpace (letterboxParams S Wsrc Hsrc).1 (letterboxParams S Wsrc Hsrc).2.1
          (letterboxParams S Wsrc Hsrc).2.2 b) =
      (b.x, b.y, b.w, b.h) := by
  refine decode_encode _ _ _ _ _ _ ?_ hx hy hxw hyh
  have hscale : (letterboxParams S Wsrc Hsrc).1 = min (S / Wsrc) (S / Hsrc) := rfl
  rw [hscale]
  exact lt_min (div_pos hS hW) (div_pos hS hH)

/-- Witness for C8: a 1920×1080 frame letterboxed into a 640×640
model input, with the box (100, 50, 200, 100). -/
theorem letterboxRoundTripWitness :
    decodeDetectionBox (letterboxParams 640 1920 1080).1 (letterboxParams 640 1920 1080).2.1
        (letterboxParams 640 1920 1080).2.2 1920 1080
        (encodeToModelSpace (letterboxParams 640 1920 1080).1
          (letterboxParams 640 1920 1080).2.1 (letterboxParams 640 1920 1080).2.2
          ⟨100, 50, 200, 100⟩) =
      (100, 50, 200, 100) :=
  letterboxRoundTrip 640 1920 1080 ⟨100, 50, 200, 100⟩ (by norm_num) (by norm_num)
    (by norm_num) (by norm_num) (by norm_num) (by norm_num) (by norm_num)
